import Mathlib

/-
  Verification of the core of signal_bot.py: the per-symbol tick store
  (MarketData), the moving-average signal strategy (compute_signal), the
  duration parser (parse_duration), the websocket listener's per-message
  handling (deriv_ws_listener, modelled by listener_step), and the snapshot
  fetch loop (subscribe_and_fetch, modelled over a script of receive events).

  Machine floats are modelled exactly: finite values as rationals, with
  explicit NaN and infinity constructors carried through the store; Python
  float() on strings is modelled by carrying the conversion outcome with the
  string value.  Wall-clock instants are rationals.
-/

/-- Value of a Python float: a finite rational, or one of the non-finite
    floats (inf, -inf, nan), all of which float() can produce. -/
inductive PyNum where
  | finite : ℚ → PyNum
  | posInf : PyNum
  | negInf : PyNum
  | nan : PyNum
  deriving DecidableEq

/-- Python exceptions arising on the modelled code paths. -/
inductive PyError where
  | valueError : PyError
  | typeError : PyError
  | jsonError : PyError
  | timeoutError : PyError
  deriving DecidableEq

/-- Values that can sit in a tick field: a number, or a string carrying the
    outcome of float() on it (none when float() would raise ValueError). -/
inductive PyVal where
  | num : PyNum → PyVal
  | str : String → Option PyNum → PyVal
  deriving DecidableEq

/-- Python truthiness of a value: 0.0 is falsy, every other float (including
    nan and the infinities) is truthy, a string is truthy iff nonempty. -/
def pyTruthy : PyVal → Bool
  | PyVal.num (PyNum.finite q) => q ≠ 0
  | PyVal.num _ => true
  | PyVal.str s _ => s ≠ ""

/-- Python float(x) on a number or string value. -/
def pyFloatVal : PyVal → Except PyError PyNum
  | PyVal.num v => Except.ok v
  | PyVal.str _ (some v) => Except.ok v
  | PyVal.str _ none => Except.error PyError.valueError

/-- Python float(x) where x may be None (float(None) raises TypeError). -/
def pyFloatOpt : Option PyVal → Except PyError PyNum
  | none => Except.error PyError.typeError
  | some v => pyFloatVal v

/-- Python d.get(k1) or d.get(k2) chaining: the left value when present and
    truthy, otherwise the right operand as-is (possibly none, i.e. None). -/
def pyGetOr (a b : Option PyVal) : Option PyVal :=
  match a with
  | some v => if pyTruthy v then some v else b
  | none => b

/-- Keys of market.ticks are arbitrary Python values: the listener's symbol
    fallback can put a quote number there, not only a string. -/
abbrev Symb := PyVal

/-- A plain string symbol (the usual case). -/
def symOf (s : String) : Symb := PyVal.str s none

/-- MAX_POINTS = 500: max number of price points stored per symbol. -/
def MAX_POINTS : ℕ := 500

/-- MarketData.ticks: dict from symbol to deque of (timestamp, price);
    none models an absent dictionary key. -/
structure MarketData where
  ticks : Symb → Option (List (ℚ × PyNum))

/-- A fresh MarketData() with an empty ticks dict. -/
def emptyMarket : MarketData := ⟨fun _ => none⟩

/-- MarketData.ensure_symbol: create an empty deque for an unseen symbol. -/
def ensure_symbol (md : MarketData) (sym : Symb) : MarketData :=
  match md.ticks sym with
  | some _ => md
  | none => ⟨fun s => if s = sym then some [] else md.ticks s⟩

/-- Append to a deque with maxlen: when the result would exceed maxlen the
    oldest entries are dropped from the left (deque(maxlen=...) semantics,
    which drops exactly one when already full). -/
def dequeAppend (maxlen : ℕ) (l : List α) (x : α) : List α :=
  if (l ++ [x]).length ≤ maxlen then l ++ [x]
  else (l ++ [x]).drop ((l ++ [x]).length - maxlen)

/-- MarketData.add_tick: ensure the symbol, then append (ts, float(price)).
    The second component is the exception float(price) raises, if any; the
    first is the store state afterwards (ensure_symbol has already run when
    float raises, so an empty deque may have been created). -/
def add_tick (md : MarketData) (sym : Symb) (price : PyVal) (ts : ℚ) :
    MarketData × Option PyError :=
  let md1 := ensure_symbol md sym
  match pyFloatVal price with
  | Except.error e => (md1, some e)
  | Except.ok v =>
    (⟨fun s => if s = sym then
        some (dequeAppend MAX_POINTS ((md1.ticks sym).getD []) (ts, v))
      else md1.ticks s⟩, none)

/-- MarketData.get_prices_since: ensure the symbol, then return the prices of
    all stored ticks whose timestamp is at least now - since_seconds, in
    stored order.  Returns the (possibly mutated) store and the price list. -/
def get_prices_since (md : MarketData) (sym : Symb) (since_seconds : ℚ)
    (now : ℚ) : MarketData × List PyNum :=
  let md1 := ensure_symbol md sym
  let cutoff := now - since_seconds
  (md1, (((md1.ticks sym).getD []).filter
      (fun tp => decide (cutoff ≤ tp.1))).map (fun tp => tp.2))

/-- Signal verdicts of compute_signal. -/
inductive Signal where
  | buy : Signal
  | sell : Signal
  | hold : Signal
  deriving DecidableEq

/-- Info string of compute_signal, abstracted to its numeric content: either
    the not-enough-data text or the (fast_ma, slow_ma, slope) triple the
    f-strings embed. -/
inductive Rationale where
  | notEnoughData : Rationale
  | metrics : ℚ → ℚ → ℚ → Rationale
  deriving DecidableEq

/-- statistics.mean, with the usual 0-on-empty convention of rational
    division by zero (never hit on the guarded paths). -/
def mean (l : List ℚ) : ℚ := l.sum / l.length

/-- Python slice l[-k:] for a natural k: the whole list when k = 0, else the
    last k elements (all of them when k exceeds the length). -/
def pySliceLast (k : ℕ) (l : List ℚ) : List ℚ :=
  if k = 0 then l else l.drop (l.length - k)

/-- Python index l[-k] (k ≥ 1), defined on the guarded paths where k ≤ len. -/
def pyIdxLast (l : List ℚ) (k : ℕ) : ℚ := l.getD (l.length - k) 0

/-- compute_signal(prices, fast_len, slow_len): moving-average crossover with
    a momentum check, translated clause by clause from the source. -/
def compute_signal (prices : List ℚ) (fast_len : ℕ) (slow_len : ℕ) :
    Signal × Rationale :=
  if prices.length < max fast_len slow_len ∨ prices.length < 3 then
    (Signal.hold, Rationale.notEnoughData)
  else
    let fast_ma := mean (pySliceLast fast_len prices)
    let slow_ma := if slow_len ≤ prices.length
      then mean (pySliceLast slow_len prices) else mean prices
    let slope := (pyIdxLast prices 1 - pyIdxLast prices 3) / 2
    if slow_ma < fast_ma ∧ 0 < slope then
      (Signal.buy, Rationale.metrics fast_ma slow_ma slope)
    else if fast_ma < slow_ma ∧ slope < 0 then
      (Signal.sell, Rationale.metrics fast_ma slow_ma slope)
    else
      (Signal.hold, Rationale.metrics fast_ma slow_ma slope)

/-- Last k elements of a list (spec sense: the whole list when k ≥ length). -/
def lastN (k : ℕ) (l : List α) : List α := l.drop (l.length - k)

/-- Reference algorithm of spec section 4.2, written from the spec text: HOLD
    below max(fastLen, slowLen, 3) points; fastMA the mean of the last
    fastLen prices; slowMA the mean of the last slowLen prices when enough
    are available, else of all prices; slope the last price minus the
    third-from-last, halved; then the BUY / SELL / HOLD priority rule. -/
def computeSignalSpec (prices : List ℚ) (fastLen : ℕ) (slowLen : ℕ) :
    Signal × Rationale :=
  if prices.length < max (max fastLen slowLen) 3 then
    (Signal.hold, Rationale.notEnoughData)
  else
    let fastMA := mean (lastN fastLen prices)
    let slowMA := if slowLen ≤ prices.length
      then mean (lastN slowLen prices) else mean prices
    let slope := (prices.getLastD 0 - (lastN 3 prices).headD 0) / 2
    if slowMA < fastMA ∧ 0 < slope then
      (Signal.buy, Rationale.metrics fastMA slowMA slope)
    else if fastMA < slowMA ∧ slope < 0 then
      (Signal.sell, Rationale.metrics fastMA slowMA slope)
    else
      (Signal.hold, Rationale.metrics fastMA slowMA slope)

/-- Shape of a duration string like 1m or 30s: its final character (none for
    the empty string) and the outcome of int() on everything before it (none
    when int() would raise ValueError, e.g. empty or non-integer text). -/
structure RawDuration where
  last : Option Char
  magInt : Option ℤ
  deriving DecidableEq

/-- parse_duration: dispatch on the suffix in source order m, s, h; scale the
    int() result by 60, 1, 3600; any other suffix raises ValueError, as does
    int() on a non-integer magnitude. -/
def parse_duration (s : RawDuration) : Except PyError ℤ :=
  if s.last = some 'm' then
    match s.magInt with
    | some n => Except.ok (n * 60)
    | none => Except.error PyError.valueError
  else if s.last = some 's' then
    match s.magInt with
    | some n => Except.ok n
    | none => Except.error PyError.valueError
  else if s.last = some 'h' then
    match s.magInt with
    | some n => Except.ok (n * 3600)
    | none => Except.error PyError.valueError
  else
    Except.error PyError.valueError

/-- Prefix of handle_signal_command: both durations are parsed up front and
    flow into the signal path with no further validation (no positivity
    check anywhere). -/
def handle_signal_durations (timeframe expiration : RawDuration) :
    Except PyError (ℤ × ℤ) := do
  let tf ← parse_duration timeframe
  let ex ← parse_duration expiration
  return (tf, ex)

/-- Fields a parsed tick object may carry (absent key = none). -/
structure TickObj where
  symbol : Option PyVal
  quote : Option PyVal
  price : Option PyVal
  bid : Option PyVal
  ask : Option PyVal
  epoch : Option ℚ
  deriving DecidableEq

/-- An inbound websocket message: either a payload json.loads rejects, or a
    parsed object with an optional tick member and an optional
    echo_req.subscribe member. -/
inductive Msg where
  | notJson : Msg
  | json : Option TickObj → Option PyVal → Msg
  deriving DecidableEq

/-- Symbol extraction in deriv_ws_listener:
    t.get(symbol) or t.get(quote) or data.get(echo_req, {}).get(subscribe). -/
def symbolChain (tk : TickObj) (echoSub : Option PyVal) : Option PyVal :=
  pyGetOr tk.symbol (pyGetOr tk.quote echoSub)

/-- Price extraction in deriv_ws_listener:
    t.get(quote) or t.get(price) or t.get(bid) or t.get(ask). -/
def priceChain (tk : TickObj) : Option PyVal :=
  pyGetOr tk.quote (pyGetOr tk.price (pyGetOr tk.bid tk.ask))

/-- A price candidate that is 0 or absent (the falsy number cases of C10). -/
def zeroOrAbsent (o : Option PyVal) : Prop :=
  o = none ∨ o = some (PyVal.num (PyNum.finite 0))

/-- One iteration of the deriv_ws_listener receive loop on one message: a
    json.loads failure or a missing tick member is silently skipped; on a
    tick, when the extracted symbol is truthy and the extracted price is not
    None, add_tick runs (whose float() may raise, and that exception
    propagates out of the loop — the second component). -/
def listener_step (md : MarketData) (now : ℚ) (m : Msg) :
    MarketData × Option PyError :=
  match m with
  | Msg.notJson => (md, none)
  | Msg.json none _ => (md, none)
  | Msg.json (some tk) echoSub =>
    match symbolChain tk echoSub, priceChain tk with
    | some sv, some pv =>
      if pyTruthy sv then add_tick md sv pv (tk.epoch.getD now) else (md, none)
    | _, _ => (md, none)

/-- Body of the subscribe_and_fetch collection loop on one received message:
    json.loads is unguarded (error propagates); a message without a tick
    member is skipped; on a tick, price is t.get(quote) or t.get(price), and
    float(price) is applied (TypeError on None, ValueError on a bad string)
    before the pair joins the accumulator and add_tick updates the store. -/
def processFetchMsg (m : Msg) (sym : Symb) (now : ℚ) (md : MarketData) :
    Except PyError (Option ((ℚ × PyNum) × MarketData)) :=
  match m with
  | Msg.notJson => Except.error PyError.jsonError
  | Msg.json none _ => Except.ok none
  | Msg.json (some tk) _ =>
    let epoch := tk.epoch.getD now
    match pyGetOr tk.quote tk.price with
    | none => Except.error PyError.typeError
    | some pv =>
      match pyFloatVal pv with
      | Except.error e => Except.error e
      | Except.ok v => Except.ok (some ((epoch, v), (add_tick md sym pv epoch).1))

/-- One scripted provider event for the fetch loop: the next message becomes
    available delay seconds after the receive starts (an exhausted script
    means the provider stays silent forever). -/
structure FetchStep where
  delay : ℚ
  payload : Msg
  deriving DecidableEq

/-- Observable outcome of subscribe_and_fetch: the returned accumulator or
    the propagated exception, how many forget requests were sent, the
    timeout argument handed to each receive, and the final store. -/
structure FetchResult where
  result : Except PyError (List (ℚ × PyNum))
  forgetSent : ℕ
  timeouts : List ℚ
  finalMd : MarketData

/-- The subscribe_and_fetch collection loop, from the source: while elapsed
    time is below duration_seconds, receive with timeout=duration_seconds
    (an asyncio.TimeoutError propagates when the next message needs longer
    than that), process the message (json/float errors propagate), and loop;
    only the normal while-exit sends the single forget request and returns
    the accumulator.  No exception path sends a forget. -/
def fetch_loop (duration : ℚ) (sym : Symb) :
    List FetchStep → ℚ → List (ℚ × PyNum) → MarketData → FetchResult
  | [], t, acc, md =>
    if t < duration then ⟨Except.error PyError.timeoutError, 0, [duration], md⟩
    else ⟨Except.ok acc, 1, [], md⟩
  | step :: rest, t, acc, md =>
    if t < duration then
      if duration < step.delay then
        ⟨Except.error PyError.timeoutError, 0, [duration], md⟩
      else
        match processFetchMsg step.payload sym (t + step.delay) md with
        | Except.error e => ⟨Except.error e, 0, [duration], md⟩
        | Except.ok none =>
          let r := fetch_loop duration sym rest (t + step.delay) acc md
          ⟨r.result, r.forgetSent, duration :: r.timeouts, r.finalMd⟩
        | Except.ok (some entry) =>
          let r := fetch_loop duration sym rest (t + step.delay)
            (acc ++ [entry.1]) entry.2
          ⟨r.result, r.forgetSent, duration :: r.timeouts, r.finalMd⟩
    else
      ⟨Except.ok acc, 1, [], md⟩

/-- subscribe_and_fetch(symbol, duration_seconds) run against a script of
    provider events, starting the clock at 0 with an empty accumulator. -/
def subscribe_and_fetch (sym : Symb) (duration : ℚ) (script : List FetchStep)
    (md : MarketData) : FetchResult :=
  fetch_loop duration sym script 0 [] md

/-- A sequence of add_tick calls for one symbol with finite prices,
    folded over the store. -/
def addAll (md : MarketData) (sym : Symb) (ticks : List (ℚ × ℚ)) : MarketData :=
  ticks.foldl (fun m tp => (add_tick m sym (PyVal.num (PyNum.finite tp.2)) tp.1).1) md

/-- Tick whose only price field is the truthy but unparseable string abc:
    the listener extraction accepts it and float() then raises. -/
def badPriceTick : TickObj :=
  { symbol := some (symOf "frxEURUSD"), quote := some (PyVal.str "abc" none),
    price := none, bid := none, ask := none, epoch := some 7 }

/-- Tick arriving 4 seconds in, quoting price 1. -/
def c4Tick : TickObj :=
  { symbol := some (symOf "frxEURUSD"), quote := some (PyVal.num (PyNum.finite 1)),
    price := none, bid := none, ask := none, epoch := some 4 }

/-- Tick whose quote and ask are both 0 and whose other price fields are
    absent, with a truthy symbol. -/
def c10Tick : TickObj :=
  { symbol := some (symOf "frxEURUSD"), quote := some (PyVal.num (PyNum.finite 0)),
    price := none, bid := none, ask := some (PyVal.num (PyNum.finite 0)), epoch := some 5 }

/-- C3: when zero ticks arrive for the full budget, subscribe_and_fetch does
    not return an empty list with one forget sent: the receive times out,
    asyncio.TimeoutError propagates, and no forget request is ever sent
    (there is no try/finally around the collection loop). -/
theorem C3_no_forget_on_silence :
    (subscribe_and_fetch (symOf "frxEURUSD") 5 [] emptyMarket).result
        = Except.error PyError.timeoutError
    ∧ (subscribe_and_fetch (symOf "frxEURUSD") 5 [] emptyMarket).forgetSent = 0 := by
  exact ⟨rfl, rfl⟩

/-- C8: a non-JSON payload terminates the subscribe_and_fetch loop with a
    propagating json error and no forget sent, while the same payload is
    silently skipped by the listener loop; and in the listener a tick whose
    price field is a truthy unparseable string raises out of the loop. -/
theorem C8_malformed_message_behavior :
    (subscribe_and_fetch (symOf "frxEURUSD") 10 [⟨1, Msg.notJson⟩] emptyMarket).result
        = Except.error PyError.jsonError
    ∧ (subscribe_and_fetch (symOf "frxEURUSD") 10 [⟨1, Msg.notJson⟩] emptyMarket).forgetSent = 0
    ∧ listener_step emptyMarket 0 Msg.notJson = (emptyMarket, none)
    ∧ (listener_step emptyMarket 0 (Msg.json (some badPriceTick) none)).2
        = some PyError.valueError := by
  exact ⟨rfl, rfl, rfl, rfl⟩

/-- C4 fails on the code: with a 10-second budget and a tick arriving after 4
    seconds, both receives are given timeout 10 — the second receive's
    timeout is not the remaining budget 10 - 4 — and when the provider then
    stays silent the fetch ends in a propagating timeout error instead of
    returning the tick collected so far. -/
theorem C4_counterexample :
    (subscribe_and_fetch (symOf "frxEURUSD") 10
        [⟨4, Msg.json (some c4Tick) none⟩] emptyMarket).timeouts = [10, 10]
    ∧ ((10 : ℚ) - 4 ≠ 10)
    ∧ (subscribe_and_fetch (symOf "frxEURUSD") 10
        [⟨4, Msg.json (some c4Tick) none⟩] emptyMarket).result
        = Except.error PyError.timeoutError := by
  refine ⟨?_, by norm_num, ?_⟩ <;>
    norm_num [subscribe_and_fetch, fetch_loop, processFetchMsg, c4Tick, pyGetOr,
      pyTruthy, pyFloatVal, add_tick, ensure_symbol, emptyMarket, symOf]

/-- C5 fails on the code: add_tick appends a NaN price without any finiteness
    check and reports no error, and an unparseable price makes float() raise
    a ValueError that propagates to the caller. -/
theorem C5_counterexample :
    (add_tick emptyMarket (symOf "frxEURUSD") (PyVal.num PyNum.nan) 0).2 = none
    ∧ (add_tick emptyMarket (symOf "frxEURUSD") (PyVal.num PyNum.nan) 0).1.ticks
        (symOf "frxEURUSD") = some [(0, PyNum.nan)]
    ∧ (add_tick emptyMarket (symOf "frxEURUSD") (PyVal.str "abc" none) 0).2
        = some PyError.valueError := by
  exact ⟨rfl, rfl, rfl⟩

/-- C10 fails on the code: in a tick whose quote and ask are both 0 (and the
    other price candidates absent), the or-chain yields the ask value 0,
    which passes the is-not-None check, so the tick is recorded with price 0
    rather than discarded. -/
theorem C10_counterexample :
    (listener_step emptyMarket 0 (Msg.json (some c10Tick) none)).1.ticks
        (symOf "frxEURUSD") = some [(5, PyNum.finite 0)]
    ∧ (listener_step emptyMarket 0 (Msg.json (some c10Tick) none)).2 = none := by
  exact ⟨rfl, rfl⟩

/-- C9: parse_duration succeeds exactly when the final character is one of
    m, s, h and the magnitude text parses as an integer; in particular the
    zero and negative magnitudes -3m and 0s are accepted as -180 and 0
    seconds, and such non-positive values pass straight through the duration
    parsing done at the top of handle_signal_command. -/
theorem C9_parse_duration_semantics (s : RawDuration) :
    ((∃ v, parse_duration s = Except.ok v) ↔
      ((s.last = some 'm' ∨ s.last = some 's' ∨ s.last = some 'h') ∧ s.magInt ≠ none))
    ∧ parse_duration ⟨some 'm', some (-3)⟩ = Except.ok (-180)
    ∧ parse_duration ⟨some 's', some 0⟩ = Except.ok 0
    ∧ handle_signal_durations ⟨some 'm', some (-3)⟩ ⟨some 'm', some 2⟩
        = Except.ok (-180, 120) := by
  refine ⟨?_, rfl, rfl, rfl⟩
  unfold parse_duration
  split_ifs with h1 h2 h3 <;> cases hm : s.magInt <;> simp_all

/-- C9 witness: the acceptance of a negative duration extracted from the
    characterization at a concrete input. -/
theorem C9_witness : parse_duration ⟨some 'm', some (-3)⟩ = Except.ok (-180) :=
  (C9_parse_duration_semantics ⟨some 'm', some (-3)⟩).2.1

/-- Python slicing l[-k:] is the last-k view whenever k is positive. -/
theorem pySliceLast_eq_lastN (k : ℕ) (l : List ℚ) (hk : 1 ≤ k) :
    pySliceLast k l = lastN k l := by
  unfold pySliceLast lastN
  rw [if_neg (by omega)]

/-- Python index l[-1] is the last element (default 0 when empty). -/
theorem pyIdxLast_one (l : List ℚ) : pyIdxLast l 1 = l.getLastD 0 := by
  unfold pyIdxLast
  rw [List.getD_eq_getElem?_getD, List.getLastD_eq_getLast?, List.getLast?_eq_getElem?]

/-- Python index l[-3] is the head of the last-3 view (default 0). -/
theorem pyIdxLast_three (l : List ℚ) : pyIdxLast l 3 = (lastN 3 l).headD 0 := by
  unfold pyIdxLast lastN
  rw [List.getD_eq_getElem?_getD, List.headD_eq_head?_getD, List.head?_drop]

/-- C1: for positive window lengths, compute_signal coincides with the
    reference algorithm of spec section 4.2 on every price sequence: the
    same insufficient-data guard, fast and slow means, halved two-step
    slope, and BUY / SELL / HOLD priority including the tie-to-HOLD case. -/
theorem C1_compute_signal_refines_spec (prices : List ℚ) (fastLen slowLen : ℕ)
    (hf : 1 ≤ fastLen) (hs : 1 ≤ slowLen) :
    compute_signal prices fastLen slowLen = computeSignalSpec prices fastLen slowLen := by
  unfold compute_signal computeSignalSpec
  have hcond : (prices.length < max fastLen slowLen ∨ prices.length < 3)
      ↔ prices.length < max (max fastLen slowLen) 3 := (lt_max_iff).symm
  by_cases h : prices.length < max (max fastLen slowLen) 3
  · rw [if_pos (hcond.mpr h), if_pos h]
  · rw [if_neg (fun hc => h (hcond.mp hc)), if_neg h,
      pySliceLast_eq_lastN fastLen prices hf, pySliceLast_eq_lastN slowLen prices hs,
      pyIdxLast_one, pyIdxLast_three]

/-- C1 witness: the refinement at a concrete input, together with the
    concrete verdict both sides compute there. -/
theorem C1_witness :
    compute_signal [1, 2, 3] 1 2 = computeSignalSpec [1, 2, 3] 1 2
    ∧ compute_signal [1, 2, 3] 1 2 = (Signal.buy, Rationale.metrics 3 (5/2) 1) := by
  refine ⟨C1_compute_signal_refines_spec [1, 2, 3] 1 2 (by norm_num) (by norm_num), ?_⟩
  norm_num [compute_signal, pySliceLast, pyIdxLast, mean]

/-- After ensure_symbol the symbol maps to its old deque, or a fresh empty
    one when it was absent. -/
theorem ensure_symbol_ticks (md : MarketData) (sym : Symb) :
    (ensure_symbol md sym).ticks sym = some ((md.ticks sym).getD []) := by
  unfold ensure_symbol
  cases h : md.ticks sym <;> simp [h]

/-- A bounded deque append is the last-maxlen view of the plain append. -/
theorem dequeAppend_eq_lastN (maxlen : ℕ) (l : List α) (x : α) :
    dequeAppend maxlen l x = lastN maxlen (l ++ [x]) := by
  unfold dequeAppend lastN
  by_cases h : (l ++ [x]).length ≤ maxlen
  · rw [if_pos h, show (l ++ [x]).length - maxlen = 0 by omega, List.drop_zero]
  · rw [if_neg h]

/-- The last-k view never exceeds k elements. -/
theorem lastN_length_le (k : ℕ) (l : List α) : (lastN k l).length ≤ k := by
  unfold lastN
  rw [List.length_drop]
  omega

/-- The last-k view ignores everything before a suffix that is long enough. -/
theorem lastN_append_right (k : ℕ) (p t : List α) (h : k ≤ t.length) :
    lastN k (p ++ t) = lastN k t := by
  unfold lastN
  rw [List.length_append,
    show p.length + t.length - k = p.length + (t.length - k) by omega,
    List.drop_append]

/-- Taking the last k, appending, and taking the last k again is the same as
    appending first. -/
theorem lastN_lastN_append (k : ℕ) (l r : List α) :
    lastN k (lastN k l ++ r) = lastN k (l ++ r) := by
  by_cases h : k ≤ l.length
  · conv_rhs => rw [← List.take_append_drop (l.length - k) l]
    rw [List.append_assoc]
    rw [lastN_append_right k (l.take (l.length - k)) (l.drop (l.length - k) ++ r)
      (by rw [List.length_append, List.length_drop]; omega)]
    rfl
  · have hl : lastN k l = l := by
      unfold lastN
      rw [show l.length - k = 0 by omega, List.drop_zero]
    rw [hl]

/-- The length of a bounded deque never exceeds the bound. -/
theorem dequeAppend_length_le (maxlen : ℕ) (l : List α) (x : α) :
    (dequeAppend maxlen l x).length ≤ maxlen := by
  rw [dequeAppend_eq_lastN]
  exact lastN_length_le maxlen (l ++ [x])

/-- Folding bounded appends over a short start keeps exactly the most recent
    maxlen entries of everything ever appended, in order. -/
theorem foldl_dequeAppend (C : ℕ) (ticks : List α) :
    ∀ h : List α, h.length ≤ C →
      ticks.foldl (fun acc x => dequeAppend C acc x) h = lastN C (h ++ ticks) := by
  induction ticks with
  | nil =>
    intro h hh
    unfold lastN
    simp only [List.foldl_nil, List.append_nil]
    rw [show h.length - C = 0 by omega, List.drop_zero]
  | cons x xs ih =>
    intro h hh
    rw [List.foldl_cons, ih (dequeAppend C h x) (dequeAppend_length_le C h x),
      dequeAppend_eq_lastN, lastN_lastN_append]
    simp

/-- Appending a finite-priced tick updates the symbol's deque by a bounded
    append of (ts, price) onto the (possibly freshly created) old deque. -/
theorem add_tick_finite_hist (md : MarketData) (sym : Symb) (q ts : ℚ) :
    (add_tick md sym (PyVal.num (PyNum.finite q)) ts).1.ticks sym
      = some (dequeAppend MAX_POINTS ((md.ticks sym).getD []) (ts, PyNum.finite q)) := by
  simp [add_tick, pyFloatVal, ensure_symbol_ticks]

/-- The deque addAll leaves at a symbol is the fold of bounded appends over
    the recorded ticks. -/
theorem addAll_hist (sym : Symb) (ticks : List (ℚ × ℚ)) :
    ∀ md : MarketData,
      ((addAll md sym ticks).ticks sym).getD []
        = ticks.foldl
            (fun acc tp => dequeAppend MAX_POINTS acc (tp.1, PyNum.finite tp.2))
            ((md.ticks sym).getD []) := by
  induction ticks with
  | nil => intro md; rfl
  | cons tp tps ih =>
    intro md
    show ((addAll (add_tick md sym (PyVal.num (PyNum.finite tp.2)) tp.1).1 sym tps).ticks sym).getD []
      = _
    rw [List.foldl_cons, ih, add_tick_finite_hist]
    rfl

/-- C2: the history held for a symbol after any sequence of finite-priced
    add_tick calls is exactly the last MAX_POINTS recorded ticks in
    insertion order (so never more than MAX_POINTS entries), and a
    get_prices_since window wide enough to cover every recorded timestamp
    returns exactly the prices of those most recent MAX_POINTS ticks. -/
theorem C2_capacity_bound (sym : Symb) (ticks : List (ℚ × ℚ)) (w now : ℚ)
    (hw : ∀ tp ∈ ticks, now - w ≤ tp.1) :
    ((addAll emptyMarket sym ticks).ticks sym).getD []
        = lastN MAX_POINTS (ticks.map (fun tp => (tp.1, PyNum.finite tp.2)))
    ∧ (((addAll emptyMarket sym ticks).ticks sym).getD []).length ≤ MAX_POINTS
    ∧ (get_prices_since (addAll emptyMarket sym ticks) sym w now).2
        = (lastN MAX_POINTS ticks).map (fun tp => PyNum.finite tp.2) := by
  have hhist : ((addAll emptyMarket sym ticks).ticks sym).getD []
      = lastN MAX_POINTS (ticks.map (fun tp => (tp.1, PyNum.finite tp.2))) := by
    rw [addAll_hist]
    show ticks.foldl _ ([] : List (ℚ × PyNum)) = _
    rw [← List.foldl_map (fun tp : ℚ × ℚ => ((tp.1 : ℚ), PyNum.finite tp.2))
        (fun acc x => dequeAppend MAX_POINTS acc x) ticks []]
    rw [foldl_dequeAppend MAX_POINTS _ [] (by simp [MAX_POINTS])]
    rfl
  refine ⟨hhist, ?_, ?_⟩
  · rw [hhist]; exact lastN_length_le _ _
  · simp only [get_prices_since]
    rw [ensure_symbol_ticks, Option.getD_some, hhist]
    have hsub : ∀ tp ∈ lastN MAX_POINTS
        (ticks.map (fun tp : ℚ × ℚ => ((tp.1 : ℚ), PyNum.finite tp.2))), now - w ≤ tp.1 := by
      intro tp htp
      have hmem : tp ∈ ticks.map (fun tp : ℚ × ℚ => ((tp.1 : ℚ), PyNum.finite tp.2)) :=
        (List.drop_sublist _ _).mem htp
      obtain ⟨tp0, htp0, rfl⟩ := List.mem_map.mp hmem
      exact hw tp0 htp0
    rw [List.filter_eq_self.mpr (fun tp htp => decide_eq_true (hsub tp htp))]
    unfold lastN
    rw [List.length_map, ← List.map_drop, List.map_map]
    rfl

/-- C2 witness: two ticks within the window; the store returns exactly their
    prices in insertion order. -/
theorem C2_witness :
    (∀ tp ∈ [((0 : ℚ), (1 : ℚ)), (1, 2)], (1 : ℚ) - 100 ≤ tp.1)
    ∧ (get_prices_since (addAll emptyMarket (symOf "frxEURUSD") [(0, 1), (1, 2)])
        (symOf "frxEURUSD") 100 1).2
      = (lastN MAX_POINTS [((0 : ℚ), (1 : ℚ)), (1, 2)]).map (fun tp => PyNum.finite tp.2) :=
  ⟨by norm_num,
   (C2_capacity_bound (symOf "frxEURUSD") [(0, 1), (1, 2)] 100 1 (by norm_num)).2.2⟩

/-- C6: get_prices_since returns exactly the stored prices whose timestamp is
    at least now minus the window, in insertion order, and an instrument
    never recorded yields the empty list rather than an error. -/
theorem C6_get_prices_since (md : MarketData) (sym : Symb) (w now : ℚ) :
    (md.ticks sym = none → (get_prices_since md sym w now).2 = [])
    ∧ (∀ h, md.ticks sym = some h →
        (get_prices_since md sym w now).2
          = (h.filter (fun tp => decide (now - w ≤ tp.1))).map (fun tp => tp.2)) := by
  constructor
  · intro h0
    simp [get_prices_since, ensure_symbol_ticks, h0]
  · intro h hmd
    simp [get_prices_since, ensure_symbol_ticks, hmd]

/-- C6 witness: a never-recorded instrument gives the empty sequence. -/
theorem C6_witness : (get_prices_since emptyMarket (symOf "frxGBPUSD") 60 0).2 = [] :=
  (C6_get_prices_since emptyMarket (symOf "frxGBPUSD") 60 0).1 rfl

/-- Every timeout the fetch loop hands to a receive is the full duration. -/
theorem fetch_loop_timeouts_const (duration : ℚ) (sym : Symb) :
    ∀ (script : List FetchStep) (t : ℚ) (acc : List (ℚ × PyNum)) (md : MarketData),
      ∀ x ∈ (fetch_loop duration sym script t acc md).timeouts, x = duration := by
  intro script
  induction script with
  | nil =>
    intro t acc md x hx
    unfold fetch_loop at hx
    split at hx
    · simpa using hx
    · simp at hx
  | cons step rest ih =>
    intro t acc md x hx
    unfold fetch_loop at hx
    split at hx
    · split at hx
      · simpa using hx
      · split at hx
        · simpa using hx
        · simp only [List.mem_cons] at hx
          rcases hx with h | h
          · exact h
          · exact ih _ _ _ x h
        · simp only [List.mem_cons] at hx
          rcases hx with h | h
          · exact h
          · exact ih _ _ _ x h
    · simp at hx

/-- C4 amended: each receive of the fetch loop is given the constant full
    duration_seconds as its timeout, never the remaining budget, and when
    the provider stays silent while budget remains the loop ends in a
    propagating timeout error with no forget sent, rather than returning
    the accumulator as a normal budget exhaustion. -/
theorem C4_constant_timeout_and_error (duration : ℚ) (sym : Symb)
    (script : List FetchStep) (t : ℚ) (acc : List (ℚ × PyNum)) (md : MarketData) :
    (∀ x ∈ (fetch_loop duration sym script t acc md).timeouts, x = duration)
    ∧ (t < duration →
        (fetch_loop duration sym [] t acc md).result = Except.error PyError.timeoutError
        ∧ (fetch_loop duration sym [] t acc md).forgetSent = 0) := by
  refine ⟨fetch_loop_timeouts_const duration sym script t acc md, fun ht => ?_⟩
  unfold fetch_loop
  rw [if_pos ht]
  exact ⟨rfl, rfl⟩

/-- C4 amended witness: at a concrete silent run with remaining budget the
    timeout list is the constant full duration and the loop errors out. -/
theorem C4_witness :
    ((0 : ℚ) < 10)
    ∧ (∀ x ∈ (fetch_loop 10 (symOf "frxEURUSD") [] 0 [] emptyMarket).timeouts, x = 10)
    ∧ (fetch_loop 10 (symOf "frxEURUSD") [] 0 [] emptyMarket).result
        = Except.error PyError.timeoutError
    ∧ (fetch_loop 10 (symOf "frxEURUSD") [] 0 [] emptyMarket).forgetSent = 0 :=
  ⟨by norm_num,
   (C4_constant_timeout_and_error 10 (symOf "frxEURUSD") [] 0 [] emptyMarket).1,
   ((C4_constant_timeout_and_error 10 (symOf "frxEURUSD") [] 0 [] emptyMarket).2
      (by norm_num)).1,
   ((C4_constant_timeout_and_error 10 (symOf "frxEURUSD") [] 0 [] emptyMarket).2
      (by norm_num)).2⟩

/-- C5 amended: add_tick runs float() on the price with no finiteness check:
    any convertible value (finite or non-finite) is appended with no error
    reported, while an unconvertible value makes the raised exception
    propagate and leaves the store as ensure_symbol left it, without the
    new entry. -/
theorem C5_float_conversion (md : MarketData) (sym : Symb) (price : PyVal) (ts : ℚ) :
    (∀ v, pyFloatVal price = Except.ok v →
        (add_tick md sym price ts).2 = none
        ∧ (add_tick md sym price ts).1.ticks sym
            = some (dequeAppend MAX_POINTS ((md.ticks sym).getD []) (ts, v)))
    ∧ (∀ e, pyFloatVal price = Except.error e →
        (add_tick md sym price ts).2 = some e
        ∧ (add_tick md sym price ts).1 = ensure_symbol md sym) := by
  constructor
  · intro v hv
    constructor <;> simp [add_tick, hv, ensure_symbol_ticks]
  · intro e he
    constructor <;> simp [add_tick, he]

/-- C5 amended witness: a concrete finite tick is appended with no error. -/
theorem C5_witness :
    pyFloatVal (PyVal.num (PyNum.finite 2)) = Except.ok (PyNum.finite 2)
    ∧ (add_tick emptyMarket (symOf "frxAUDUSD") (PyVal.num (PyNum.finite 2)) 1).2 = none
    ∧ (add_tick emptyMarket (symOf "frxAUDUSD") (PyVal.num (PyNum.finite 2)) 1).1.ticks
        (symOf "frxAUDUSD")
      = some (dequeAppend MAX_POINTS ((emptyMarket.ticks (symOf "frxAUDUSD")).getD [])
          (1, PyNum.finite 2)) :=
  ⟨rfl,
   ((C5_float_conversion emptyMarket (symOf "frxAUDUSD") (PyVal.num (PyNum.finite 2)) 1).1
      (PyNum.finite 2) rfl).1,
   ((C5_float_conversion emptyMarket (symOf "frxAUDUSD") (PyVal.num (PyNum.finite 2)) 1).1
      (PyNum.finite 2) rfl).2⟩

/-- Python x or y passes through to y when x is 0 or absent. -/
theorem pyGetOr_falsy (a b : Option PyVal) (ha : zeroOrAbsent a) : pyGetOr a b = b := by
  rcases ha with rfl | rfl <;> simp [pyGetOr, pyTruthy]

/-- C10 amended: with quote, price and bid each 0 or absent, the or-chain
    yields the ask field as-is; a tick whose final price value is None, or
    whose chained symbol is missing or falsy, is discarded with nothing
    recorded; an empty-string symbol falls through to the quote and echo
    alternatives; but when ask is present as 0 the chain yields 0, which
    passes the is-not-None check, and the tick is recorded with price 0. -/
theorem C10_or_chain_semantics (tk : TickObj) (echoSub : Option PyVal)
    (md : MarketData) (now : ℚ)
    (hq : zeroOrAbsent tk.quote) (hp : zeroOrAbsent tk.price)
    (hb : zeroOrAbsent tk.bid) :
    priceChain tk = tk.ask
    ∧ (tk.symbol = some (symOf "") → symbolChain tk echoSub = pyGetOr tk.quote echoSub)
    ∧ (tk.ask = none → listener_step md now (Msg.json (some tk) echoSub) = (md, none))
    ∧ (symbolChain tk echoSub = none →
        listener_step md now (Msg.json (some tk) echoSub) = (md, none))
    ∧ (∀ sv, symbolChain tk echoSub = some sv → pyTruthy sv = false →
        listener_step md now (Msg.json (some tk) echoSub) = (md, none))
    ∧ (tk.ask = some (PyVal.num (PyNum.finite 0)) →
        ∀ sv, symbolChain tk echoSub = some sv → pyTruthy sv = true →
          (listener_step md now (Msg.json (some tk) echoSub)).2 = none
          ∧ (listener_step md now (Msg.json (some tk) echoSub)).1.ticks sv
            = some (dequeAppend MAX_POINTS ((md.ticks sv).getD [])
                (tk.epoch.getD now, PyNum.finite 0))) := by
  have hchain : priceChain tk = tk.ask := by
    unfold priceChain
    rw [pyGetOr_falsy _ _ hq, pyGetOr_falsy _ _ hp, pyGetOr_falsy _ _ hb]
  refine ⟨hchain, ?_, ?_, ?_, ?_, ?_⟩
  · intro hsy
    unfold symbolChain
    rw [hsy]
    simp [pyGetOr, pyTruthy, symOf]
  · intro hask
    rcases hsym : symbolChain tk echoSub with _ | sv <;>
      simp [listener_step, hsym, hchain, hask]
  · intro hsym
    simp [listener_step, hsym]
  · intro sv hsym hfalse
    simp [listener_step, hsym, hfalse]
    rcases hpc : priceChain tk with _ | pv <;> simp [hfalse]
  · intro hask sv hsym htrue
    have h2 : (listener_step md now (Msg.json (some tk) echoSub))
        = add_tick md sv (PyVal.num (PyNum.finite 0)) (tk.epoch.getD now) := by
      simp [listener_step, hsym, hchain, hask, htrue]
    rw [h2]
    exact ⟨((C5_float_conversion md sv (PyVal.num (PyNum.finite 0))
        (tk.epoch.getD now)).1 (PyNum.finite 0) rfl).1,
      ((C5_float_conversion md sv (PyVal.num (PyNum.finite 0))
        (tk.epoch.getD now)).1 (PyNum.finite 0) rfl).2⟩

/-- Sum bound: a nonempty list of elements all below b sums below length * b. -/
theorem sum_lt_length_mul (l : List ℚ) (b : ℚ) (hne : l ≠ [])
    (h : ∀ x ∈ l, x < b) : l.sum < l.length * b := by
  induction l with
  | nil => exact absurd rfl hne
  | cons x xs ih =>
    rcases eq_or_ne xs [] with rfl | hxs
    · simpa using h x (by simp)
    · have h1 : x < b := h x (by simp)
      have h2 : xs.sum < xs.length * b := ih hxs (fun y hy => h y (by simp [hy]))
      simp only [List.sum_cons, List.length_cons]
      push_cast
      linarith

/-- Sum bound: a list of elements all at least b sums to at least length * b. -/
theorem length_mul_le_sum (l : List ℚ) (b : ℚ)
    (h : ∀ x ∈ l, b ≤ x) : l.length * b ≤ l.sum := by
  induction l with
  | nil => simp
  | cons x xs ih =>
    have h1 : b ≤ x := h x (by simp)
    have h2 : xs.length * b ≤ xs.sum := ih (fun y hy => h y (by simp [hy]))
    simp only [List.sum_cons, List.length_cons]
    push_cast
    linarith

/-- Sum bound: a nonempty list of elements all above b sums above length * b. -/
theorem length_mul_lt_sum (l : List ℚ) (b : ℚ) (hne : l ≠ [])
    (h : ∀ x ∈ l, b < x) : l.length * b < l.sum := by
  induction l with
  | nil => exact absurd rfl hne
  | cons x xs ih =>
    rcases eq_or_ne xs [] with rfl | hxs
    · simpa using h x (by simp)
    · have h1 : b < x := h x (by simp)
      have h2 : xs.length * b < xs.sum := ih hxs (fun y hy => h y (by simp [hy]))
      simp only [List.sum_cons, List.length_cons]
      push_cast
      linarith

/-- Sum bound: a list of elements all at most b sums to at most length * b. -/
theorem sum_le_length_mul (l : List ℚ) (b : ℚ)
    (h : ∀ x ∈ l, x ≤ b) : l.sum ≤ l.length * b := by
  induction l with
  | nil => simp
  | cons x xs ih =>
    have h1 : x ≤ b := h x (by simp)
    have h2 : xs.sum ≤ xs.length * b := ih (fun y hy => h y (by simp [hy]))
    simp only [List.sum_cons, List.length_cons]
    push_cast
    linarith

/-- The head of a strictly increasing list is a lower bound. -/
theorem sorted_lt_head_le (a : ℚ) (l : List ℚ)
    (hs : (a :: l).Sorted (· < ·)) : ∀ y ∈ a :: l, a ≤ y := by
  intro y hy
  rcases List.mem_cons.mp hy with rfl | hy
  · exact le_refl y
  · exact le_of_lt (List.rel_of_sorted_cons hs y hy)

/-- The head of a strictly decreasing list is an upper bound. -/
theorem sorted_gt_head_ge (a : ℚ) (l : List ℚ)
    (hs : (a :: l).Sorted (· > ·)) : ∀ y ∈ a :: l, y ≤ a := by
  intro y hy
  rcases List.mem_cons.mp hy with rfl | hy
  · exact le_refl y
  · exact le_of_lt (List.rel_of_sorted_cons hs y hy)

/-- For a strictly increasing list, the mean of a proper nonempty suffix
    exceeds the mean of the whole list. -/
theorem mean_lt_mean_lastN (l : List ℚ) (k : ℕ) (hs : l.Sorted (· < ·))
    (hk : 1 ≤ k) (hkl : k < l.length) : mean l < mean (lastN k l) := by
  have hsplit : l.take (l.length - k) ++ l.drop (l.length - k) = l :=
    List.take_append_drop (l.length - k) l
  have hs2 : (l.take (l.length - k) ++ l.drop (l.length - k)).Pairwise (· < ·) := by
    rw [hsplit]; exact hs
  have hparts := List.pairwise_append.mp hs2
  have hlen_p : (l.take (l.length - k)).length = l.length - k := by
    rw [List.length_take]; omega
  have hlen_s : (l.drop (l.length - k)).length = k := by
    rw [List.length_drop]; omega
  rcases hdrop : l.drop (l.length - k) with _ | ⟨a, s1⟩
  · rw [hdrop] at hlen_s; simp at hlen_s; omega
  · have hsort_s : (a :: s1).Sorted (· < ·) := by
      rw [← hdrop]; exact hparts.2.1
    have hhead : ∀ y ∈ a :: s1, a ≤ y := sorted_lt_head_le a s1 hsort_s
    have hamem : a ∈ l.drop (l.length - k) := by rw [hdrop]; simp
    have hxa : ∀ x ∈ l.take (l.length - k), x < a :=
      fun x hx => hparts.2.2 x hx a hamem
    have hpne : l.take (l.length - k) ≠ [] := by
      intro hcon
      rw [hcon] at hlen_p
      simp at hlen_p
      omega
    have hA : (l.take (l.length - k)).sum < (l.length - k : ℕ) * a := by
      have := sum_lt_length_mul (l.take (l.length - k)) a hpne hxa
      rwa [hlen_p] at this
    have hB : (k : ℚ) * a ≤ (a :: s1).sum := by
      have := length_mul_le_sum (a :: s1) a hhead
      rw [show (a :: s1).length = k by rw [← hdrop]; exact hlen_s] at this
      exact this
    have hsum : l.sum = (l.take (l.length - k)).sum + (a :: s1).sum := by
      rw [← hdrop]
      conv_lhs => rw [← hsplit]
      rw [List.sum_append]
    show l.sum / (l.length : ℚ) < (lastN k l).sum / ((lastN k l).length : ℚ)
    have hlastN : lastN k l = a :: s1 := hdrop
    rw [hlastN, show ((a :: s1).length : ℚ) = (k : ℚ) by
      rw [show (a :: s1).length = k by rw [← hdrop]; exact hlen_s]]
    have hL : (l.length : ℚ) = ((l.length - k : ℕ) : ℚ) + (k : ℚ) := by
      rw [← Nat.cast_add]
      congr 1
      omega
    have hL0 : (0 : ℚ) < (l.length : ℚ) := by
      exact_mod_cast (by omega : 0 < l.length)
    have hk0 : (0 : ℚ) < (k : ℚ) := by
      exact_mod_cast (by omega : 0 < k)
    rw [div_lt_div_iff₀ hL0 hk0]
    · rw [hsum, hL]
      have hj0 : (0 : ℚ) ≤ ((l.length - k : ℕ) : ℚ) := by positivity
      have hk0 : (0 : ℚ) < (k : ℚ) := by positivity
      nlinarith [mul_lt_mul_of_pos_right hA hk0,
        mul_le_mul_of_nonneg_left hB hj0]

/-- For a strictly decreasing list, the mean of a proper nonempty suffix is
    below the mean of the whole list. -/
theorem mean_lastN_lt_mean (l : List ℚ) (k : ℕ) (hs : l.Sorted (· > ·))
    (hk : 1 ≤ k) (hkl : k < l.length) : mean (lastN k l) < mean l := by
  have hsplit : l.take (l.length - k) ++ l.drop (l.length - k) = l :=
    List.take_append_drop (l.length - k) l
  have hs2 : (l.take (l.length - k) ++ l.drop (l.length - k)).Pairwise (· > ·) := by
    rw [hsplit]; exact hs
  have hparts := List.pairwise_append.mp hs2
  have hlen_p : (l.take (l.length - k)).length = l.length - k := by
    rw [List.length_take]; omega
  have hlen_s : (l.drop (l.length - k)).length = k := by
    rw [List.length_drop]; omega
  rcases hdrop : l.drop (l.length - k) with _ | ⟨a, s1⟩
  · rw [hdrop] at hlen_s; simp at hlen_s; omega
  · have hsort_s : (a :: s1).Sorted (· > ·) := by
      rw [← hdrop]; exact hparts.2.1
    have hhead : ∀ y ∈ a :: s1, y ≤ a := sorted_gt_head_ge a s1 hsort_s
    have hamem : a ∈ l.drop (l.length - k) := by rw [hdrop]; simp
    have hxa : ∀ x ∈ l.take (l.length - k), a < x :=
      fun x hx => hparts.2.2 x hx a hamem
    have hpne : l.take (l.length - k) ≠ [] := by
      intro hcon
      rw [hcon] at hlen_p
      simp at hlen_p
      omega
    have hA : (l.length - k : ℕ) * a < (l.take (l.length - k)).sum := by
      have := length_mul_lt_sum (l.take (l.length - k)) a hpne hxa
      rwa [hlen_p] at this
    have hB : (a :: s1).sum ≤ (k : ℚ) * a := by
      have := sum_le_length_mul (a :: s1) a hhead
      rw [show (a :: s1).length = k by rw [← hdrop]; exact hlen_s] at this
      exact this
    have hsum : l.sum = (l.take (l.length - k)).sum + (a :: s1).sum := by
      rw [← hdrop]
      conv_lhs => rw [← hsplit]
      rw [List.sum_append]
    show (lastN k l).sum / ((lastN k l).length : ℚ) < l.sum / (l.length : ℚ)
    have hlastN : lastN k l = a :: s1 := hdrop
    rw [hlastN, show ((a :: s1).length : ℚ) = (k : ℚ) by
      rw [show (a :: s1).length = k by rw [← hdrop]; exact hlen_s]]
    have hL : (l.length : ℚ) = ((l.length - k : ℕ) : ℚ) + (k : ℚ) := by
      rw [← Nat.cast_add]
      congr 1
      omega
    have hL0 : (0 : ℚ) < (l.length : ℚ) := by
      exact_mod_cast (by omega : 0 < l.length)
    have hk0 : (0 : ℚ) < (k : ℚ) := by
      exact_mod_cast (by omega : 0 < k)
    rw [div_lt_div_iff₀ hk0 hL0]
    · rw [hsum, hL]
      have hj0 : (0 : ℚ) ≤ ((l.length - k : ℕ) : ℚ) := by positivity
      nlinarith [mul_lt_mul_of_pos_right hA hk0,
        mul_le_mul_of_nonneg_left hB hj0]

/-- Nested last-k views collapse when the inner one is wider. -/
theorem lastN_lastN (k m : ℕ) (l : List α) (hk : k ≤ m) (hm : m ≤ l.length) :
    lastN k (lastN m l) = lastN k l := by
  unfold lastN
  rw [List.length_drop, List.drop_drop]
  congr 1
  omega

/-- A strictly increasing price list, long enough, gives BUY. -/
theorem compute_signal_inc_buy (prices : List ℚ) (fastLen slowLen : ℕ)
    (hf : 1 ≤ fastLen) (hfs : fastLen < slowLen) (h3 : 3 ≤ slowLen)
    (hlen : slowLen ≤ prices.length) (hs : prices.Sorted (· < ·)) :
    (compute_signal prices fastLen slowLen).1 = Signal.buy := by
  have hguard : ¬(prices.length < max fastLen slowLen ∨ prices.length < 3) := by
    rw [Nat.max_eq_right (le_of_lt hfs)]
    omega
  have hLsort : (lastN slowLen prices).Sorted (· < ·) :=
    List.Pairwise.sublist (List.drop_sublist _ _) hs
  have hLlen : (lastN slowLen prices).length = slowLen := by
    unfold lastN
    rw [List.length_drop]
    omega
  have hma : mean (pySliceLast slowLen prices) < mean (pySliceLast fastLen prices) := by
    rw [pySliceLast_eq_lastN fastLen prices hf,
      pySliceLast_eq_lastN slowLen prices (by omega)]
    have := mean_lt_mean_lastN (lastN slowLen prices) fastLen hLsort hf (by omega)
    rwa [lastN_lastN fastLen slowLen prices (le_of_lt hfs) hlen] at this
  have hslope : 0 < (pyIdxLast prices 1 - pyIdxLast prices 3) / 2 := by
    have h1 : prices.length - 3 < prices.length := by omega
    have h2 : prices.length - 1 < prices.length := by omega
    have h12 : prices.length - 3 < prices.length - 1 := by omega
    have hlt := List.pairwise_iff_getElem.mp hs (prices.length - 3)
      (prices.length - 1) h1 h2 h12
    have e3 : pyIdxLast prices 3 < pyIdxLast prices 1 := by
      unfold pyIdxLast
      rw [List.getD_eq_getElem?_getD, List.getD_eq_getElem?_getD,
        List.getElem?_eq_getElem h1, List.getElem?_eq_getElem h2,
        Option.getD_some, Option.getD_some]
      exact hlt
    have := sub_pos.mpr e3
    linarith
  unfold compute_signal
  rw [if_neg hguard]
  simp only [if_pos hlen]
  rw [if_pos ⟨hma, hslope⟩]

/-- A strictly decreasing price list, long enough, gives SELL. -/
theorem compute_signal_dec_sell (prices : List ℚ) (fastLen slowLen : ℕ)
    (hf : 1 ≤ fastLen) (hfs : fastLen < slowLen) (h3 : 3 ≤ slowLen)
    (hlen : slowLen ≤ prices.length) (hs : prices.Sorted (· > ·)) :
    (compute_signal prices fastLen slowLen).1 = Signal.sell := by
  have hguard : ¬(prices.length < max fastLen slowLen ∨ prices.length < 3) := by
    rw [Nat.max_eq_right (le_of_lt hfs)]
    omega
  have hLsort : (lastN slowLen prices).Sorted (· > ·) :=
    List.Pairwise.sublist (List.drop_sublist _ _) hs
  have hLlen : (lastN slowLen prices).length = slowLen := by
    unfold lastN
    rw [List.length_drop]
    omega
  have hma : mean (pySliceLast fastLen prices) < mean (pySliceLast slowLen prices) := by
    rw [pySliceLast_eq_lastN fastLen prices hf,
      pySliceLast_eq_lastN slowLen prices (by omega)]
    have := mean_lastN_lt_mean (lastN slowLen prices) fastLen hLsort hf (by omega)
    rwa [lastN_lastN fastLen slowLen prices (le_of_lt hfs) hlen] at this
  have hslope : (pyIdxLast prices 1 - pyIdxLast prices 3) / 2 < 0 := by
    have h1 : prices.length - 3 < prices.length := by omega
    have h2 : prices.length - 1 < prices.length := by omega
    have h12 : prices.length - 3 < prices.length - 1 := by omega
    have hlt := List.pairwise_iff_getElem.mp hs (prices.length - 3)
      (prices.length - 1) h1 h2 h12
    have e3 : pyIdxLast prices 1 < pyIdxLast prices 3 := by
      unfold pyIdxLast
      rw [List.getD_eq_getElem?_getD, List.getD_eq_getElem?_getD,
        List.getElem?_eq_getElem h1, List.getElem?_eq_getElem h2,
        Option.getD_some, Option.getD_some]
      exact hlt
    have := sub_neg.mpr e3
    linarith
  have hnotbuy : ¬(mean (pySliceLast slowLen prices) < mean (pySliceLast fastLen prices)
      ∧ 0 < (pyIdxLast prices 1 - pyIdxLast prices 3) / 2) := by
    intro hcon
    exact absurd hcon.1 (not_lt.mpr (le_of_lt hma))
  unfold compute_signal
  rw [if_neg hguard]
  simp only [if_pos hlen]
  rw [if_neg hnotbuy, if_pos ⟨hma, hslope⟩]

/-- C7: on a strictly increasing price sequence of length at least slowLen,
    with positive fastLen below slowLen and slowLen at least 3, the verdict
    is BUY; on a strictly decreasing sequence under the same conditions it
    is SELL. -/
theorem C7_monotone_verdicts (prices : List ℚ) (fastLen slowLen : ℕ)
    (hf : 1 ≤ fastLen) (hfs : fastLen < slowLen) (h3 : 3 ≤ slowLen)
    (hlen : slowLen ≤ prices.length) :
    (prices.Sorted (· < ·) → (compute_signal prices fastLen slowLen).1 = Signal.buy)
    ∧ (prices.Sorted (· > ·) → (compute_signal prices fastLen slowLen).1 = Signal.sell) :=
  ⟨fun hs => compute_signal_inc_buy prices fastLen slowLen hf hfs h3 hlen hs,
   fun hs => compute_signal_dec_sell prices fastLen slowLen hf hfs h3 hlen hs⟩

/-- C7 witness: a concrete increasing triple gives BUY and a concrete
    decreasing triple gives SELL. -/
theorem C7_witness :
    (compute_signal [1, 2, 3] 1 3).1 = Signal.buy
    ∧ (compute_signal [3, 2, 1] 1 3).1 = Signal.sell :=
  ⟨(C7_monotone_verdicts [1, 2, 3] 1 3 (by norm_num) (by norm_num) (by norm_num)
      (by norm_num)).1 (by norm_num [List.sorted_cons]),
   (C7_monotone_verdicts [3, 2, 1] 1 3 (by norm_num) (by norm_num) (by norm_num)
      (by norm_num)).2 (by norm_num [List.sorted_cons])⟩

/-- C10 amended witness: the concrete tick whose quote and ask are 0 and
    whose other candidates are absent ends up recorded with price 0. -/
theorem C10_witness :
    zeroOrAbsent c10Tick.quote
    ∧ (listener_step emptyMarket 0 (Msg.json (some c10Tick) none)).2 = none
    ∧ (listener_step emptyMarket 0 (Msg.json (some c10Tick) none)).1.ticks
        (symOf "frxEURUSD")
      = some (dequeAppend MAX_POINTS ((emptyMarket.ticks (symOf "frxEURUSD")).getD [])
          (c10Tick.epoch.getD 0, PyNum.finite 0)) :=
  ⟨Or.inr rfl,
   ((C10_or_chain_semantics c10Tick none emptyMarket 0 (Or.inr rfl) (Or.inl rfl)
      (Or.inl rfl)).2.2.2.2.2 rfl (symOf "frxEURUSD") rfl rfl).1,
   ((C10_or_chain_semantics c10Tick none emptyMarket 0 (Or.inr rfl) (Or.inl rfl)
      (Or.inl rfl)).2.2.2.2.2 rfl (symOf "frxEURUSD") rfl rfl).2⟩
